import Mathlib

/-!
# Verification of the `gameoflife` repository

Shallow embedding of the two source files of the repository:

* `src/internal/gol.go` — the grid engine (`GameOfLife`, `NewGameOfLife`,
  `Set`, `At`, `Flush`, `CellValue`, `Update`, `DrawRect`, `Image`);
* `src/main.go` — the animation generator (`GenerateGIF`, the CRC64/ISO
  fingerprint loop, `MaxIterations`).

Go machine integers are modelled as `Int` (coordinates, dimensions, scale)
or `Nat` (counts, fingerprints, with explicit `% 2^w` reductions where the
Go code relies on 64-bit wrap-around, namely in the CRC64 computation).
Go slices become `List`s; Go's fallible functions return `Option`/`Except`.
A Go slice write `s[i] = v` is modelled as a functional update; a Go loop of
independent writes is modelled as an index-aware map (`mapIdxFrom`) or a
`List.foldl` over the loop's index range, preserving the source's bounds
and iteration structure.
-/

set_option autoImplicit false
set_option maxRecDepth 8000

/-! ## Generic list helpers -/

/-- Index-aware map, modelling a Go loop `for idx, v := range l` that
rebuilds every element from its index and old value.  The extra `Nat`
argument is the index of the first element. -/
def mapIdxFrom {α : Type} (f : Nat → α → α) : Nat → List α → List α
  | _, [] => []
  | n, a :: as => f n a :: mapIdxFrom f (n + 1) as

theorem mapIdxFrom_length {α : Type} (f : Nat → α → α) (n : Nat) (l : List α) :
    (mapIdxFrom f n l).length = l.length := by
  induction l generalizing n with
  | nil => rfl
  | cons a as ih => simp [mapIdxFrom, ih]

theorem mapIdxFrom_get? {α : Type} (f : Nat → α → α) (n : Nat) (l : List α) (i : Nat) :
    (mapIdxFrom f n l).get? i = (l.get? i).map (f (n + i)) := by
  induction l generalizing n i with
  | nil => simp [mapIdxFrom]
  | cons a as ih =>
    cases i with
    | zero => simp [mapIdxFrom]
    | succ j =>
      simp only [mapIdxFrom, List.get?]
      rw [ih (n + 1) j]
      have h : n + 1 + j = n + (j + 1) := by omega
      rw [h]

theorem mem_mapIdxFrom {α : Type} {f : Nat → α → α} {n : Nat} {l : List α} {a : α}
    (h : a ∈ mapIdxFrom f n l) : ∃ k b, b ∈ l ∧ a = f k b := by
  induction l generalizing n with
  | nil => simp [mapIdxFrom] at h
  | cons x xs ih =>
    simp only [mapIdxFrom, List.mem_cons] at h
    rcases h with h | h
    · exact ⟨n, x, List.mem_cons_self x xs, h⟩
    · obtain ⟨k, b, hb, hab⟩ := ih h
      exact ⟨k, b, List.mem_cons_of_mem x hb, hab⟩

theorem getD_spec {α : Type} (l : List α) (i : Nat) (d : α) :
    l.getD i d = (l.get? i).getD d := by
  induction l generalizing i with
  | nil => cases i <;> rfl
  | cons a as ih => cases i <;> simp [List.getD, ih]

theorem get?_set_self {α : Type} (l : List α) (i : Nat) (a : α) (h : i < l.length) :
    (l.set i a).get? i = some a := by
  induction l generalizing i with
  | nil => simp at h
  | cons x xs ih =>
    cases i with
    | zero => rfl
    | succ j => simpa using ih j (by simpa using h)

theorem get?_set_other {α : Type} (l : List α) (i j : Nat) (a : α) (h : i ≠ j) :
    (l.set i a).get? j = l.get? j := by
  induction l generalizing i j with
  | nil => rfl
  | cons x xs ih =>
    cases i with
    | zero => cases j with
      | zero => exact absurd rfl h
      | succ k => rfl
    | succ i' => cases j with
      | zero => rfl
      | succ k => simpa using ih i' k (by omega)

theorem foldl_invariant {α β : Type} (f : β → α → β) (P : β → Prop)
    (hf : ∀ b a, P b → P (f b a)) : ∀ (l : List α) (b : β), P b → P (l.foldl f b)
  | [], _, hb => hb
  | a :: as, b, hb => foldl_invariant f P hf as (f b a) (hf b a hb)

/-! ## The grid engine (`src/internal/gol.go`) -/

/-- The `GameOfLife` struct: fixed dimensions, current generation `data`,
staging buffer `back_buffer` (both `height` rows of `width` cells). -/
structure GameOfLife where
  width : Int
  height : Int
  data : List (List Bool)
  back_buffer : List (List Bool)
deriving DecidableEq, Repr

/-- Row `y`, cell `x` of the current buffer (the Go expression
`g.data[y][x]`; out-of-range indices read the `getD` default, which the Go
code never reaches because it only indexes after a bounds check). -/
def GameOfLife.dataAt (g : GameOfLife) (x y : Int) : Bool :=
  (g.data.getD y.toNat []).getD x.toNat false

/-- Row `y`, cell `x` of the staging buffer (`g.back_buffer[y][x]`). -/
def GameOfLife.bbAt (g : GameOfLife) (x y : Int) : Bool :=
  (g.back_buffer.getD y.toNat []).getD x.toNat false

/-- `NewGameOfLife`: fails when `width <= 0 || height <= 0`, otherwise
allocates both buffers as `height` rows of `width` dead cells. -/
def NewGameOfLife (width height : Int) : Option GameOfLife :=
  if width ≤ 0 ∨ height ≤ 0 then none
  else some ⟨width, height,
    List.replicate height.toNat (List.replicate width.toNat false),
    List.replicate height.toNat (List.replicate width.toNat false)⟩

/-- `Set`: bounds-checks `x` against `width` and `y` against `height`
(in that order, as in the source), then writes `val` into both buffers. -/
def GameOfLife.Set (g : GameOfLife) (x y : Int) (val : Bool) : Except String GameOfLife :=
  if x < 0 ∨ g.width ≤ x then Except.error "out of bounds"
  else if y < 0 ∨ g.height ≤ y then Except.error "out of bounds"
  else Except.ok { g with
    data := g.data.set y.toNat ((g.data.getD y.toNat []).set x.toNat val),
    back_buffer := g.back_buffer.set y.toNat ((g.back_buffer.getD y.toNat []).set x.toNat val) }

/-- `At`: returns `false` for any coordinate outside
`[0,width) x [0,height)`, otherwise reads the current buffer. -/
def GameOfLife.At (g : GameOfLife) (x y : Int) : Bool :=
  if x < 0 ∨ g.width ≤ x then false
  else if y < 0 ∨ g.height ≤ y then false
  else g.dataAt x y

/-- `Flush`: copies `back_buffer[i][j]` into `data[i][j]` for every
`i < height`, `j < width`, leaving any other entry of `data` unchanged. -/
def GameOfLife.Flush (g : GameOfLife) : GameOfLife :=
  { g with data :=
      mapIdxFrom (fun i row =>
        if i < g.height.toNat then
          mapIdxFrom (fun j v =>
            if j < g.width.toNat then (g.back_buffer.getD i []).getD j v else v) 0 row
        else row) 0 g.data }

/-- `CellValue`: number of alive cells among the 8 Moore neighbours of
`(x,y)`, read through `At` (off-grid neighbours count as dead); the centre
position `i = j = 1` is skipped. -/
def GameOfLife.CellValue (g : GameOfLife) (x y : Int) : Nat :=
  ((List.range 3).map fun i =>
    ((List.range 3).map fun j =>
      if j = 1 ∧ i = 1 then 0
      else if g.At ((j : Int) + x - 1) ((i : Int) + y - 1) then 1 else 0).sum).sum

/-- `Update`: for every `i < height`, `j < width` computes the neighbour
count of `(j,i)` from the (unmodified) current buffer and writes into the
staging buffer only when the cell's value changes under the rule — an
alive cell with count `< 2` or `> 3` becomes dead, a dead cell with count
`= 3` becomes alive, and every other staging entry keeps its old value.
Finally `Flush` publishes the staging buffer as the current one. -/
def GameOfLife.Update (g : GameOfLife) : GameOfLife :=
  GameOfLife.Flush
    { g with back_buffer :=
        mapIdxFrom (fun i row =>
          if i < g.height.toNat then
            mapIdxFrom (fun j v =>
              if j < g.width.toNat then
                let cnt := g.CellValue (j : Int) (i : Int)
                if g.At (j : Int) (i : Int) then
                  if cnt < 2 ∨ 3 < cnt then false else v
                else
                  if cnt = 3 then true else v
              else v) 0 row
          else row) 0 g.back_buffer }

/-- Well-formedness of a reachable grid: positive dimensions, the current
buffer is a `height x width` rectangle, and the staging buffer is
identical to it.  `NewGameOfLife` establishes this and `Set`/`Update`
preserve it (theorem `C9_buffer_invariant`). -/
def GameOfLife.Wf (g : GameOfLife) : Prop :=
  0 < g.width ∧ 0 < g.height ∧
  g.data.length = g.height.toNat ∧
  (∀ row ∈ g.data, row.length = g.width.toNat) ∧
  g.back_buffer = g.data

instance (g : GameOfLife) : Decidable g.Wf := by
  unfold GameOfLife.Wf; infer_instance

/-! ### Concrete grids used as witnesses -/

/-- A 2x2 grid entirely filled by a block still life. -/
def block2 : GameOfLife :=
  ⟨2, 2, [[true, true], [true, true]], [[true, true], [true, true]]⟩

/-- A 3x3 grid holding a horizontal 3-cell blinker in its middle row. -/
def blinker : GameOfLife :=
  ⟨3, 3,
   [[false, false, false], [true, true, true], [false, false, false]],
   [[false, false, false], [true, true, true], [false, false, false]]⟩

/-- A 1x1 grid with its single cell alive. -/
def oneAlive : GameOfLife := ⟨1, 1, [[true]], [[true]]⟩

example : block2.Update = block2 := by decide
example : blinker.Update.Update = blinker := by decide
example : blinker.Update ≠ blinker := by decide
example : blinker.Wf := by decide

/-! ## Pointwise behaviour of `Set`, `Flush` and `Update` -/

/-- Writing `v` at `(x,y)` into a rectangular 2-d buffer changes exactly
the cell `(x,y)`, read back through the `getD`-based accessors. -/
theorem set2d_getD (m : List (List Bool)) (x y a b : Int) (v : Bool)
    (hx0 : 0 ≤ x) (hy0 : 0 ≤ y) (ha0 : 0 ≤ a) (hb0 : 0 ≤ b)
    (hylen : y.toNat < m.length)
    (hxlen : x.toNat < (m.getD y.toNat []).length) :
    ((m.set y.toNat ((m.getD y.toNat []).set x.toNat v)).getD b.toNat []).getD a.toNat false
      = if a = x ∧ b = y then v else (m.getD b.toNat []).getD a.toNat false := by
  by_cases hb : b = y
  · subst hb
    rw [getD_spec (m.set _ _), get?_set_self _ _ _ hylen, Option.getD_some]
    by_cases ha : a = x
    · subst ha
      rw [getD_spec, get?_set_self _ _ _ hxlen, Option.getD_some]
      simp
    · have hne : x.toNat ≠ a.toNat := by omega
      rw [getD_spec, get?_set_other _ _ _ _ hne, ← getD_spec,
        if_neg (fun h => ha h.1)]
  · have hne : y.toNat ≠ b.toNat := by omega
    rw [getD_spec (m.set _ _), get?_set_other _ _ _ _ hne, ← getD_spec,
      if_neg (fun h => hb h.2)]

/-- When both buffers are `height x width` rectangles, `Flush` replaces
the whole current buffer by the staging buffer. -/
theorem flush_data_eq (g : GameOfLife)
    (hd_len : g.data.length = g.height.toNat)
    (hd_rows : ∀ row ∈ g.data, row.length = g.width.toNat)
    (hb_len : g.back_buffer.length = g.height.toNat)
    (hb_rows : ∀ row ∈ g.back_buffer, row.length = g.width.toNat) :
    g.Flush.data = g.back_buffer := by
  apply List.ext_get?
  intro i
  rw [GameOfLife.Flush, mapIdxFrom_get?, Nat.zero_add]
  by_cases hi : i < g.data.length
  · obtain ⟨row, hrow⟩ : ∃ row, g.data.get? i = some row := by
      rw [List.get?_eq_get hi]; exact ⟨_, rfl⟩
    obtain ⟨brow, hbrow⟩ : ∃ brow, g.back_buffer.get? i = some brow := by
      rw [List.get?_eq_get (by omega : i < g.back_buffer.length)]; exact ⟨_, rfl⟩
    rw [hrow, hbrow, Option.map_some', if_pos (by omega : i < g.height.toNat)]
    have hbrowD : g.back_buffer.getD i [] = brow := by
      rw [getD_spec, hbrow, Option.getD_some]
    congr 1
    apply List.ext_get?
    intro j
    rw [mapIdxFrom_get?, Nat.zero_add]
    have hrlen : row.length = g.width.toNat := hd_rows row (List.get?_mem hrow)
    have hblen : brow.length = g.width.toNat := hb_rows brow (List.get?_mem hbrow)
    by_cases hj : j < g.width.toNat
    · obtain ⟨c, hc⟩ : ∃ c, row.get? j = some c := by
        rw [List.get?_eq_get (by omega : j < row.length)]; exact ⟨_, rfl⟩
      obtain ⟨bc, hbc⟩ : ∃ bc, brow.get? j = some bc := by
        rw [List.get?_eq_get (by omega : j < brow.length)]; exact ⟨_, rfl⟩
      rw [hc, hbc, Option.map_some', if_pos hj, hbrowD, getD_spec, hbc, Option.getD_some]
    · have h1 : row.get? j = none := List.get?_eq_none.mpr (by omega)
      have h2 : brow.get? j = none := List.get?_eq_none.mpr (by omega)
      rw [h1, h2, Option.map_none']
  · have h1 : g.data.get? i = none := List.get?_eq_none.mpr (by omega)
    have h2 : g.back_buffer.get? i = none := List.get?_eq_none.mpr (by omega)
    rw [h1, h2, Option.map_none']

/-! ## C7 — `At` is total, open boundary -/

/-- C7: `At(x,y)` is total (its Lean type returns a `Bool` for every
argument, mirroring that the Go code bounds-checks before any slice
indexing, so the indexing is unreachable for out-of-bounds arguments).
For every coordinate outside `[0,width) x [0,height)` it returns `false`
(dead, no wraparound), and for every in-bounds coordinate it returns the
current-generation value `data[y][x]`. -/
theorem C7_at_total (g : GameOfLife) (x y : Int) :
    (¬ (0 ≤ x ∧ x < g.width ∧ 0 ≤ y ∧ y < g.height) → g.At x y = false) ∧
    ((0 ≤ x ∧ x < g.width ∧ 0 ≤ y ∧ y < g.height) → g.At x y = g.dataAt x y) := by
  constructor
  · intro h
    unfold GameOfLife.At
    split_ifs with h1 h2
    · rfl
    · rfl
    · exact absurd (by omega : 0 ≤ x ∧ x < g.width ∧ 0 ≤ y ∧ y < g.height) h
  · intro h
    unfold GameOfLife.At
    rw [if_neg (by omega), if_neg (by omega)]

/-- Witness for C7 at concrete inputs: an out-of-bounds read on the
blinker grid returns `false` and an in-bounds read returns the stored
cell. -/
theorem C7_at_total_witness :
    blinker.At 5 0 = false ∧ blinker.At 1 1 = blinker.dataAt 1 1 :=
  ⟨(C7_at_total blinker 5 0).1 (by decide), (C7_at_total blinker 1 1).2 (by decide)⟩

/-! ## C6 — `Set` bounds checking -/

/-- C6: for every out-of-bounds coordinate `Set` returns the
`out of bounds` error (and, the embedding being functional, the grid value
is only replaced on the `ok` path, so no cell of either buffer is mutated
before the error); for every in-bounds coordinate `Set` succeeds and
writes the value into both the current and the staging buffer at exactly
`(x,y)`, leaving every other cell of both buffers unchanged. -/
theorem C6_set_bounds (g : GameOfLife) (x y : Int) (v : Bool) (hwf : g.Wf) :
    (¬ (0 ≤ x ∧ x < g.width ∧ 0 ≤ y ∧ y < g.height) →
       g.Set x y v = Except.error "out of bounds") ∧
    ((0 ≤ x ∧ x < g.width ∧ 0 ≤ y ∧ y < g.height) →
       ∃ g', g.Set x y v = Except.ok g' ∧
         g'.width = g.width ∧ g'.height = g.height ∧
         (∀ a b : Int, 0 ≤ a → a < g.width → 0 ≤ b → b < g.height →
           (g'.dataAt a b = if a = x ∧ b = y then v else g.dataAt a b) ∧
           (g'.bbAt a b = if a = x ∧ b = y then v else g.bbAt a b))) := by
  obtain ⟨hw, hh, hdlen, hdrows, hsync⟩ := hwf
  constructor
  · intro h
    unfold GameOfLife.Set
    split_ifs with h1 h2
    · rfl
    · rfl
    · exact absurd (by omega : 0 ≤ x ∧ x < g.width ∧ 0 ≤ y ∧ y < g.height) h
  · rintro ⟨hx0, hx, hy0, hy⟩
    refine ⟨{ g with
        data := g.data.set y.toNat ((g.data.getD y.toNat []).set x.toNat v),
        back_buffer := g.back_buffer.set y.toNat
          ((g.back_buffer.getD y.toNat []).set x.toNat v) },
      ?_, rfl, rfl, ?_⟩
    · unfold GameOfLife.Set
      rw [if_neg (by omega), if_neg (by omega)]
    · intro a b ha0 ha hb0 hb
      have hylen : y.toNat < g.data.length := by omega
      have hrowD : g.data.getD y.toNat [] ∈ g.data := by
        obtain ⟨row, hrow⟩ : ∃ row, g.data.get? y.toNat = some row := by
          rw [List.get?_eq_get hylen]; exact ⟨_, rfl⟩
        rw [getD_spec, hrow, Option.getD_some]
        exact List.get?_mem hrow
      have hrlen : (g.data.getD y.toNat []).length = g.width.toNat :=
        hdrows _ hrowD
      constructor
      · simp only [GameOfLife.dataAt]
        exact set2d_getD g.data x y a b v hx0 hy0 ha0 hb0 hylen (by omega)
      · simp only [GameOfLife.bbAt]
        rw [hsync]
        exact set2d_getD g.data x y a b v hx0 hy0 ha0 hb0 hylen (by omega)

/-- Witness for C6: on the concrete blinker grid, `Set` at `(3,0)` fails
with the out-of-bounds error and `Set` at `(0,0)` succeeds and updates
exactly that cell of both buffers. -/
theorem C6_set_bounds_witness :
    blinker.Set 3 0 true = Except.error "out of bounds" ∧
    ∃ g', blinker.Set 0 0 true = Except.ok g' ∧
      g'.width = blinker.width ∧ g'.height = blinker.height ∧
      (∀ a b : Int, 0 ≤ a → a < blinker.width → 0 ≤ b → b < blinker.height →
        (g'.dataAt a b = if a = 0 ∧ b = 0 then true else blinker.dataAt a b) ∧
        (g'.bbAt a b = if a = 0 ∧ b = 0 then true else blinker.bbAt a b)) :=
  ⟨(C6_set_bounds blinker 3 0 true (by decide)).1 (by decide),
   (C6_set_bounds blinker 0 0 true (by decide)).2 (by decide)⟩

/-! ## C9 — the double-buffer synchronisation invariant -/

theorem at_inbounds (g : GameOfLife) (x y : Int)
    (hx0 : 0 ≤ x) (hx : x < g.width) (hy0 : 0 ≤ y) (hy : y < g.height) :
    g.At x y = g.dataAt x y := by
  unfold GameOfLife.At
  rw [if_neg (by omega), if_neg (by omega)]

/-- `Flush` on a grid whose two buffers are `height x width` rectangles
yields a well-formed grid whose buffers coincide. -/
theorem flush_wf (g : GameOfLife) (hw : 0 < g.width) (hh : 0 < g.height)
    (hd_len : g.data.length = g.height.toNat)
    (hd_rows : ∀ row ∈ g.data, row.length = g.width.toNat)
    (hb_len : g.back_buffer.length = g.height.toNat)
    (hb_rows : ∀ row ∈ g.back_buffer, row.length = g.width.toNat) :
    g.Flush.Wf := by
  have hde := flush_data_eq g hd_len hd_rows hb_len hb_rows
  refine ⟨hw, hh, ?_, ?_, ?_⟩
  · rw [hde]; exact hb_len
  · rw [hde]; exact hb_rows
  · rw [hde]; rfl

/-- The staging pass of `Update` keeps the staging buffer rectangular, so
the final `Flush` re-synchronises the two buffers. -/
theorem update_wf (g : GameOfLife) (hwf : g.Wf) : g.Update.Wf := by
  obtain ⟨hw, hh, hdlen, hdrows, hsync⟩ := hwf
  unfold GameOfLife.Update
  apply flush_wf
  · exact hw
  · exact hh
  · exact hdlen
  · exact hdrows
  · rw [mapIdxFrom_length, hsync]; exact hdlen
  · intro row hrow
    obtain ⟨k, b, hb, rfl⟩ := mem_mapIdxFrom hrow
    rw [hsync] at hb
    have hbl : b.length = g.width.toNat := hdrows b hb
    split
    · rw [mapIdxFrom_length]; exact hbl
    · exact hbl

/-- After `Update`, the published current buffer equals the staging
buffer (which `Flush` leaves in place). -/
theorem update_data_eq (g : GameOfLife) (hwf : g.Wf) :
    g.Update.data = g.Update.back_buffer := by
  obtain ⟨hw, hh, hdlen, hdrows, hsync⟩ := hwf
  unfold GameOfLife.Update
  apply flush_data_eq
  · exact hdlen
  · exact hdrows
  · rw [mapIdxFrom_length, hsync]; exact hdlen
  · intro row hrow
    obtain ⟨k, b, hb, rfl⟩ := mem_mapIdxFrom hrow
    rw [hsync] at hb
    have hbl : b.length = g.width.toNat := hdrows b hb
    split
    · rw [mapIdxFrom_length]; exact hbl
    · exact hbl

/-- C9: after construction, after every successful `Set` and after every
`Update`, the current buffer and the staging buffer hold identical
`height x width` rectangular contents (`Wf` bundles the rectangularity
and the buffer equality).  `Update` relies on this: its staging pass only
writes the cells whose value changes, leaving unchanged cells at their
pre-existing staging values. -/
theorem C9_buffer_invariant :
    (∀ (w h : Int) (g : GameOfLife), NewGameOfLife w h = some g → g.Wf) ∧
    (∀ (g : GameOfLife) (x y : Int) (v : Bool) (g' : GameOfLife),
        g.Wf → g.Set x y v = Except.ok g' → g'.Wf) ∧
    (∀ g : GameOfLife, g.Wf → g.Update.Wf) := by
  refine ⟨?_, ?_, update_wf⟩
  · intro w h g hnew
    unfold NewGameOfLife at hnew
    split at hnew
    · exact absurd hnew (by simp)
    · next hcond =>
      have hg := Option.some.inj hnew
      subst hg
      refine ⟨by dsimp only; omega, by dsimp only; omega, by simp, ?_, rfl⟩
      intro row hrow
      rw [List.eq_of_mem_replicate hrow]
      simp
  · intro g x y v g' hwf hset
    obtain ⟨hw, hh, hdlen, hdrows, hsync⟩ := hwf
    unfold GameOfLife.Set at hset
    by_cases h1 : x < 0 ∨ g.width ≤ x
    · rw [if_pos h1] at hset; exact absurd hset (by simp)
    rw [if_neg h1] at hset
    by_cases h2 : y < 0 ∨ g.height ≤ y
    · rw [if_pos h2] at hset; exact absurd hset (by simp)
    rw [if_neg h2] at hset
    have hg := Except.ok.inj hset
    subst hg
    have hylen : y.toNat < g.data.length := by omega
    refine ⟨hw, hh, ?_, ?_, ?_⟩
    · dsimp only
      rw [List.length_set]; exact hdlen
    · dsimp only
      intro row hrow
      rcases List.mem_or_eq_of_mem_set hrow with hmem | hset2
      · exact hdrows row hmem
      · subst hset2
        rw [List.length_set]
        obtain ⟨r, hr⟩ : ∃ r, g.data.get? y.toNat = some r := by
          rw [List.get?_eq_get hylen]; exact ⟨_, rfl⟩
        rw [getD_spec, hr, Option.getD_some]
        exact hdrows r (List.get?_mem hr)
    · dsimp only
      rw [hsync]

/-- Witness for C9 at concrete inputs: the grid constructed by
`NewGameOfLife 2 2` is well-formed, and so is the blinker grid after one
`Update`. -/
theorem C9_buffer_invariant_witness :
    GameOfLife.Wf ⟨2, 2, [[false, false], [false, false]], [[false, false], [false, false]]⟩ ∧
    blinker.Update.Wf :=
  ⟨C9_buffer_invariant.1 2 2 _ (by decide),
   C9_buffer_invariant.2.2 blinker (by decide)⟩

/-! ## C1 — the transition rule of `Update` -/

/-- The value the `Update` pass leaves in the staging buffer at an
in-bounds cell: the rule value when the cell changes, the old staging
value otherwise.  Neighbour counts come from the (unmodified) current
buffer of `g`. -/
theorem update_stage_value (g : GameOfLife) (x y : Int) (hwf : g.Wf)
    (hx0 : 0 ≤ x) (hx : x < g.width) (hy0 : 0 ≤ y) (hy : y < g.height) :
    g.Update.bbAt x y =
      (if g.At x y then
        (if g.CellValue x y < 2 ∨ 3 < g.CellValue x y then false else g.bbAt x y)
       else
        (if g.CellValue x y = 3 then true else g.bbAt x y)) := by
  obtain ⟨hw, hh, hdlen, hdrows, hsync⟩ := hwf
  have hblen : g.back_buffer.length = g.height.toNat := by rw [hsync]; exact hdlen
  have hylen : y.toNat < g.back_buffer.length := by omega
  obtain ⟨row, hrow⟩ : ∃ row, g.back_buffer.get? y.toNat = some row := by
    rw [List.get?_eq_get hylen]; exact ⟨_, rfl⟩
  have hrl : row.length = g.width.toNat := by
    rw [hsync] at hrow
    exact hdrows row (List.get?_mem hrow)
  have hxlen : x.toNat < row.length := by omega
  obtain ⟨c, hc⟩ : ∃ c, row.get? x.toNat = some c := by
    rw [List.get?_eq_get hxlen]; exact ⟨_, rfl⟩
  have hcbb : (g.back_buffer.getD y.toNat []).getD x.toNat false = c := by
    rw [getD_spec g.back_buffer, hrow, Option.getD_some, getD_spec row, hc, Option.getD_some]
  have hxI : ((x.toNat : Nat) : Int) = x := Int.toNat_of_nonneg hx0
  have hyI : ((y.toNat : Nat) : Int) = y := Int.toNat_of_nonneg hy0
  unfold GameOfLife.Update GameOfLife.Flush GameOfLife.bbAt
  dsimp only
  rw [getD_spec (mapIdxFrom _ _ _), mapIdxFrom_get?, Nat.zero_add, hrow, Option.map_some',
    Option.getD_some, if_pos (by omega : y.toNat < g.height.toNat)]
  rw [getD_spec (mapIdxFrom _ _ _), mapIdxFrom_get?, Nat.zero_add, hc, Option.map_some',
    Option.getD_some, if_pos (by omega : x.toNat < g.width.toNat)]
  simp only [hxI, hyI, hcbb]

/-- C1: for every well-formed grid and in-bounds coordinate, after one
`Update` (the spec's `Advance`; it is a total function, so it never
fails) the cell at `(x,y)` is alive exactly when either it was alive in
the pre-update generation with exactly 2 or 3 alive Moore neighbours, or
it was dead with exactly 3; the neighbour count `CellValue` is evaluated
on the pre-update grid `g` only, with off-grid neighbours read as dead
through `At`. -/
theorem C1_advance_rule (g : GameOfLife) (x y : Int) (hwf : g.Wf)
    (hx0 : 0 ≤ x) (hx : x < g.width) (hy0 : 0 ≤ y) (hy : y < g.height) :
    (g.Update.At x y = true ↔
      ((g.At x y = true ∧ (g.CellValue x y = 2 ∨ g.CellValue x y = 3)) ∨
       (g.At x y = false ∧ g.CellValue x y = 3))) := by
  have hde := update_data_eq g hwf
  have hstage := update_stage_value g x y hwf hx0 hx hy0 hy
  obtain ⟨hw, hh, hdlen, hdrows, hsync⟩ := hwf
  have hUw : g.Update.width = g.width := rfl
  have hUh : g.Update.height = g.height := rfl
  have h1 : g.Update.At x y = g.Update.dataAt x y :=
    at_inbounds _ x y hx0 (by omega) hy0 (by omega)
  have h2 : g.Update.dataAt x y = g.Update.bbAt x y := by
    unfold GameOfLife.dataAt GameOfLife.bbAt
    rw [hde]
  have hbbAt : g.bbAt x y = g.At x y := by
    rw [at_inbounds g x y hx0 hx hy0 hy]
    unfold GameOfLife.bbAt GameOfLife.dataAt
    rw [hsync]
  rw [h1, h2, hstage, hbbAt]
  cases hAt : g.At x y with
  | true =>
    rw [if_pos rfl]
    split_ifs with hc <;> simp <;> omega
  | false =>
    rw [if_neg (by simp)]
    split_ifs with hc <;> simp <;> omega

/-- Witness for C1 on the blinker grid: the cell `(1,0)` is dead with
exactly 3 alive neighbours, so it is alive after one `Update`. -/
theorem C1_advance_rule_witness :
    blinker.Wf ∧
    (blinker.Update.At 1 0 = true ↔
      ((blinker.At 1 0 = true ∧ (blinker.CellValue 1 0 = 2 ∨ blinker.CellValue 1 0 = 3)) ∨
       (blinker.At 1 0 = false ∧ blinker.CellValue 1 0 = 3))) :=
  ⟨by decide,
   C1_advance_rule blinker 1 0 (by decide) (by decide) (by decide) (by decide) (by decide)⟩

/-! ## Rendering (`DrawRect` and `Image` of `src/internal/gol.go`) -/

/-- A paletted raster image.  The palette of `Image` is
`[white, black]`; `pix a b = true` means the pixel holds the second
palette colour (black, used for alive cells), `false` the first (white).
The four bounds model the canonicalised `image.Rect(0,0,w,h)`. -/
structure Paletted where
  minX : Int
  minY : Int
  maxX : Int
  maxY : Int
  pix : Int → Int → Bool

/-- Membership of a point in the image rectangle (Go's
`Point.In(p.Rect)` test used by `Paletted.Set`). -/
def Paletted.inRect (p : Paletted) (a b : Int) : Prop :=
  p.minX ≤ a ∧ a < p.maxX ∧ p.minY ≤ b ∧ b < p.maxY

instance (p : Paletted) (a b : Int) : Decidable (p.inRect a b) := by
  unfold Paletted.inRect; infer_instance

/-- `img.Set(x, y, col)`: discards the write when `(x,y)` is outside the
rectangle, otherwise overwrites exactly that pixel. -/
def Paletted.set (p : Paletted) (x y : Int) (col : Bool) : Paletted :=
  if p.inRect x y then
    { p with pix := fun a b => if a = x ∧ b = y then col else p.pix a b }
  else p

/-- `image.NewPaletted(image.Rect(0,0,w,h), palette)`: `image.Rect`
canonicalises the rectangle by swapping each coordinate pair that is out
of order, and the fresh image has every pixel at palette index 0
(white). -/
def newPaletted (w h : Int) : Paletted :=
  ⟨min 0 w, min 0 h, max 0 w, max 0 h, fun _ _ => false⟩

/-- The inclusive integer range `x0..x1` of a Go loop
`for j := x0; j <= x1; j++` (empty when `x1 < x0`). -/
def intRange (x0 x1 : Int) : List Int :=
  (List.range (x1 + 1 - x0).toNat).map (fun k : Nat => x0 + (k : Int))

/-- `DrawRect(x0,y0,x1,y1,col,img)`: sets every pixel with
`x0 ≤ j ≤ x1`, `y0 ≤ i ≤ y1` (both bounds inclusive) to `col`, rows
outer, columns inner. -/
def DrawRect (x0 y0 x1 y1 : Int) (col : Bool) (img : Paletted) : Paletted :=
  (intRange y0 y1).foldl (fun im i =>
    (intRange x0 x1).foldl (fun im2 j => im2.set j i col) im) img

/-- `Image(scale)`: a fresh `width*scale x height*scale` two-colour
raster; each cell `(j,i)` is drawn as the rectangle from
`(j*scale, i*scale)` to `(j*scale+scale, i*scale+scale)` (inclusive),
black when the cell is alive and white otherwise, rows outer.  The
source fixes `scale = 4` at its call site; it is a parameter here, as in
the spec's `RenderFrame`. -/
def GameOfLife.Image (g : GameOfLife) (scale : Int) : Paletted :=
  (List.range g.height.toNat).foldl (fun img (i : Nat) =>
    (List.range g.width.toNat).foldl (fun img (j : Nat) =>
      DrawRect ((j : Int) * scale) ((i : Int) * scale)
        ((j : Int) * scale + scale) ((i : Int) * scale + scale)
        (g.At (j : Int) (i : Int)) img) img)
    (newPaletted (g.width * scale) (g.height * scale))

theorem mem_intRange (x0 x1 a : Int) : a ∈ intRange x0 x1 ↔ x0 ≤ a ∧ a ≤ x1 := by
  unfold intRange
  simp only [List.mem_map, List.mem_range]
  constructor
  · rintro ⟨k, hk, rfl⟩; omega
  · rintro ⟨h1, h2⟩
    exact ⟨(a - x0).toNat, by omega, by omega⟩

theorem set_inRect (p : Paletted) (x y a b : Int) (col : Bool) :
    ((p.set x y col).inRect a b ↔ p.inRect a b) := by
  unfold Paletted.set Paletted.inRect
  split <;> simp

theorem set_pix (p : Paletted) (x y a b : Int) (col : Bool) :
    (p.set x y col).pix a b =
      if a = x ∧ b = y ∧ p.inRect x y then col else p.pix a b := by
  unfold Paletted.set
  by_cases h : p.inRect x y
  · rw [if_pos h]
    dsimp only
    by_cases hab : a = x ∧ b = y
    · rw [if_pos hab, if_pos ⟨hab.1, hab.2, h⟩]
    · rw [if_neg hab, if_neg (fun hcon => hab ⟨hcon.1, hcon.2.1⟩)]
  · rw [if_neg h, if_neg (fun hcon => h hcon.2.2)]

theorem foldl_set_inRect (col : Bool) (i : Int) (L : List Int) (im : Paletted) (a b : Int) :
    (L.foldl (fun im2 j => im2.set j i col) im).inRect a b ↔ im.inRect a b := by
  induction L generalizing im with
  | nil => exact Iff.rfl
  | cons x L ih => rw [List.foldl_cons, ih, set_inRect]

/-- Pixel content after the inner column loop of `DrawRect` over one row
`i`: the pixel is recoloured exactly when its column is in the list and
it lies in the image rectangle. -/
theorem foldl_set_pix (col : Bool) (i : Int) (L : List Int) (im : Paletted) (a b : Int) :
    (L.foldl (fun im2 j => im2.set j i col) im).pix a b =
      if a ∈ L ∧ b = i ∧ im.inRect a b then col else im.pix a b := by
  induction L generalizing im with
  | nil => simp
  | cons x L ih =>
    rw [List.foldl_cons, ih, set_pix]
    simp only [set_inRect]
    by_cases h1 : a ∈ L ∧ b = i ∧ im.inRect a b
    · rw [if_pos h1, if_pos ⟨List.mem_cons_of_mem x h1.1, h1.2⟩]
    · rw [if_neg h1]
      by_cases h2 : a = x ∧ b = i ∧ im.inRect x i
      · obtain ⟨rfl, rfl, hio⟩ := h2
        rw [if_pos ⟨rfl, rfl, hio⟩, if_pos ⟨List.mem_cons_self a L, rfl, hio⟩]
      · rw [if_neg h2, if_neg ?_]
        rintro ⟨hmem, rfl, hio⟩
        rcases List.mem_cons.mp hmem with rfl | hmem2
        · exact h2 ⟨rfl, rfl, hio⟩
        · exact h1 ⟨hmem2, rfl, hio⟩

/-- Pixel content after the two nested loops of `DrawRect` over a list of
rows. -/
theorem foldl_rows_pix (col : Bool) (x0 x1 : Int) (Li : List Int) (img : Paletted) (a b : Int) :
    ((Li.foldl (fun im i =>
        (intRange x0 x1).foldl (fun im2 j => im2.set j i col) im) img).pix a b) =
      if a ∈ intRange x0 x1 ∧ b ∈ Li ∧ img.inRect a b then col else img.pix a b := by
  induction Li generalizing img with
  | nil => simp
  | cons i Li ih =>
    rw [List.foldl_cons, ih, foldl_set_pix]
    simp only [foldl_set_inRect]
    by_cases h1 : a ∈ intRange x0 x1 ∧ b ∈ Li ∧ img.inRect a b
    · rw [if_pos h1, if_pos ⟨h1.1, List.mem_cons_of_mem i h1.2.1, h1.2.2⟩]
    · rw [if_neg h1]
      by_cases h2 : a ∈ intRange x0 x1 ∧ b = i ∧ img.inRect a b
      · obtain ⟨hx, rfl, hio⟩ := h2
        rw [if_pos ⟨hx, rfl, hio⟩, if_pos ⟨hx, List.mem_cons_self b Li, hio⟩]
      · rw [if_neg h2, if_neg ?_]
        rintro ⟨hx, hmem, hio⟩
        rcases List.mem_cons.mp hmem with rfl | hmem2
        · exact h2 ⟨hx, rfl, hio⟩
        · exact h1 ⟨hx, hmem2, hio⟩

/-- Pointwise description of one `DrawRect` call. -/
theorem DrawRect_pix (x0 y0 x1 y1 : Int) (col : Bool) (img : Paletted) (a b : Int) :
    (DrawRect x0 y0 x1 y1 col img).pix a b =
      if x0 ≤ a ∧ a ≤ x1 ∧ y0 ≤ b ∧ b ≤ y1 ∧ img.inRect a b then col
      else img.pix a b := by
  unfold DrawRect
  rw [foldl_rows_pix]
  simp only [mem_intRange]
  split_ifs with h1 h2 <;> first | rfl | (exfalso; tauto)

/-- `DrawRect` does not change the image rectangle. -/
theorem DrawRect_inRect (x0 y0 x1 y1 : Int) (col : Bool) (img : Paletted) (a b : Int) :
    (DrawRect x0 y0 x1 y1 col img).inRect a b ↔ img.inRect a b := by
  unfold DrawRect
  induction intRange y0 y1 generalizing img with
  | nil => exact Iff.rfl
  | cons i L ih => rw [List.foldl_cons, ih, foldl_set_inRect]

/-- Equality of the rectangle bounds of two images. -/
def rectEq (p q : Paletted) : Prop :=
  p.minX = q.minX ∧ p.minY = q.minY ∧ p.maxX = q.maxX ∧ p.maxY = q.maxY

theorem rectEq_refl (p : Paletted) : rectEq p p := ⟨rfl, rfl, rfl, rfl⟩

theorem rectEq_trans {p q r : Paletted} (h1 : rectEq p q) (h2 : rectEq q r) : rectEq p r :=
  ⟨h1.1.trans h2.1, h1.2.1.trans h2.2.1, h1.2.2.1.trans h2.2.2.1, h1.2.2.2.trans h2.2.2.2⟩

theorem set_rectEq (p : Paletted) (x y : Int) (col : Bool) : rectEq (p.set x y col) p := by
  unfold Paletted.set rectEq
  split <;> exact ⟨rfl, rfl, rfl, rfl⟩

theorem DrawRect_rectEq (x0 y0 x1 y1 : Int) (col : Bool) (img : Paletted) :
    rectEq (DrawRect x0 y0 x1 y1 col img) img := by
  unfold DrawRect
  apply foldl_invariant _ (fun im => rectEq im img)
  · intro im i him
    apply foldl_invariant _ (fun im2 => rectEq im2 img)
    · intro im2 j h2
      exact rectEq_trans (set_rectEq im2 j i col) h2
    · exact him
  · exact rectEq_refl img

/-- The image rectangle is untouched by the whole `Image` drawing loop. -/
theorem Image_rectEq (g : GameOfLife) (scale : Int) :
    rectEq (g.Image scale) (newPaletted (g.width * scale) (g.height * scale)) := by
  unfold GameOfLife.Image
  apply foldl_invariant _ (fun im => rectEq im (newPaletted (g.width * scale) (g.height * scale)))
  · intro im i him
    apply foldl_invariant _
      (fun im2 => rectEq im2 (newPaletted (g.width * scale) (g.height * scale)))
    · intro im2 j h2
      exact rectEq_trans (DrawRect_rectEq _ _ _ _ _ im2) h2
    · exact him
  · exact rectEq_refl _

/-- Rectangle preservation for one row of cell draws. -/
theorem cellRow_inRect (g : GameOfLife) (s : Int) (i : Int) (n : Nat)
    (img : Paletted) (a b : Int) :
    (((List.range n).foldl (fun im (j : Nat) =>
        DrawRect ((j : Int) * s) (i * s) ((j : Int) * s + s) (i * s + s)
          (g.At (j : Int) i) im) img).inRect a b) ↔ img.inRect a b := by
  induction n generalizing img with
  | zero => exact Iff.rfl
  | succ n ih =>
    rw [List.range_succ, List.foldl_append, List.foldl_cons, List.foldl_nil,
      DrawRect_inRect, ih]

/-- Pixel content after one row of cell draws (cells `0..n-1` of row
`i`): within the horizontal strip `[i*s, i*s+s]` the pixel shows the cell
`min (a/s) (n-1)` of row `i` (the last cell whose inclusive rectangle
covers column `a`); outside it, the pixel is unchanged. -/
theorem cellRow_pix (g : GameOfLife) (s : Int) (hs : 0 < s) (i : Int) (n : Nat)
    (img : Paletted) (a b : Int) (himg : img.inRect a b) :
    (((List.range n).foldl (fun im (j : Nat) =>
        DrawRect ((j : Int) * s) (i * s) ((j : Int) * s + s) (i * s + s)
          (g.At (j : Int) i) im) img).pix a b) =
      if 0 ≤ a ∧ a ≤ (n : Int) * s ∧ 0 < n ∧ i * s ≤ b ∧ b ≤ i * s + s
      then g.At (min (a / s) ((n : Int) - 1)) i else img.pix a b := by
  induction n generalizing img with
  | zero => simp
  | succ n ih =>
    rw [List.range_succ, List.foldl_append, List.foldl_cons, List.foldl_nil, DrawRect_pix,
      ih img himg]
    simp only [cellRow_inRect]
    push_cast
    have hmul : ((n : Int) + 1) * s = (n : Int) * s + s := by ring
    have hns : (0 : Int) ≤ (n : Int) * s := mul_nonneg (by positivity) hs.le
    by_cases hband : i * s ≤ b ∧ b ≤ i * s + s
    swap
    · rw [if_neg (by tauto), if_neg (by tauto), if_neg (by tauto)]
    by_cases hA : (n : Int) * s ≤ a ∧ a ≤ (n : Int) * s + s
    · have hdiv : (n : Int) ≤ a / s := (Int.le_ediv_iff_mul_le hs).mpr hA.1
      rw [if_pos ⟨hA.1, hA.2, hband.1, hband.2, himg⟩,
        if_pos ⟨by omega, by omega, by omega, hband.1, hband.2⟩]
      have h1 : (n : Int) + 1 - 1 = (n : Int) := by ring
      rw [h1, min_eq_right hdiv]
    · by_cases hB : 0 ≤ a ∧ a ≤ (n : Int) * s ∧ 0 < n
      · have hlt : a < (n : Int) * s := by
          by_contra hge
          exact hA ⟨by omega, by omega⟩
        have hdiv : a / s < (n : Int) := (Int.ediv_lt_iff_lt_mul hs).mpr hlt
        have hdiv0 : 0 ≤ a / s := Int.ediv_nonneg hB.1 hs.le
        rw [if_neg (fun hcon => hA ⟨hcon.1, hcon.2.1⟩),
          if_pos ⟨hB.1, hB.2.1, hB.2.2, hband.1, hband.2⟩,
          if_pos ⟨hB.1, by omega, by omega, hband.1, hband.2⟩]
        have e1 : min (a / s) ((n : Int) - 1) = a / s := min_eq_left (by omega)
        have e2 : (n : Int) + 1 - 1 = (n : Int) := by ring
        rw [e1, e2, min_eq_left (by omega)]
      · have hz : ((0 : Nat) : Int) * s = 0 := by push_cast; ring
        have hnC : ¬ (0 ≤ a ∧ a ≤ ((n : Int) + 1) * s ∧ 0 < n + 1 ∧
            i * s ≤ b ∧ b ≤ i * s + s) := by
          rintro ⟨h0a, hle, -, -, -⟩
          have hnsa : (n : Int) * s ≤ a := by
            rcases Nat.eq_zero_or_pos n with rfl | hn
            · simpa [hz] using h0a
            · by_contra hlt2
              exact hB ⟨h0a, by omega, hn⟩
          exact hA ⟨hnsa, by omega⟩
        rw [if_neg (fun hcon => hA ⟨hcon.1, hcon.2.1⟩),
          if_neg (fun hcon => hB ⟨hcon.1, hcon.2.1, hcon.2.2.1⟩), if_neg hnC]

/-- Rectangle preservation for the outer row loop of `Image`. -/
theorem colFold_inRect (g : GameOfLife) (s : Int) (m : Nat) (img : Paletted) (a b : Int) :
    (((List.range m).foldl (fun im (i : Nat) =>
        (List.range g.width.toNat).foldl (fun im2 (j : Nat) =>
          DrawRect ((j : Int) * s) ((i : Int) * s) ((j : Int) * s + s) ((i : Int) * s + s)
            (g.At (j : Int) (i : Int)) im2) im) img).inRect a b) ↔ img.inRect a b := by
  induction m generalizing img with
  | zero => exact Iff.rfl
  | succ m ih =>
    rw [List.range_succ, List.foldl_append, List.foldl_cons, List.foldl_nil,
      cellRow_inRect, ih]

/-- Pixel content after drawing the first `m` rows of cells: an in-bounds
pixel of the covered region shows the cell
`(min (a/s) (width-1), min (b/s) (m-1))` — the last cell drawn whose
inclusive `scale+1 x scale+1` rectangle covers it. -/
theorem colFold_pix (g : GameOfLife) (s : Int) (hs : 0 < s) (m : Nat)
    (img : Paletted) (a b : Int) (himg : img.inRect a b) :
    (((List.range m).foldl (fun im (i : Nat) =>
        (List.range g.width.toNat).foldl (fun im2 (j : Nat) =>
          DrawRect ((j : Int) * s) ((i : Int) * s) ((j : Int) * s + s) ((i : Int) * s + s)
            (g.At (j : Int) (i : Int)) im2) im) img).pix a b) =
      if 0 ≤ a ∧ a ≤ (g.width.toNat : Int) * s ∧ 0 < g.width.toNat ∧
         0 ≤ b ∧ b ≤ (m : Int) * s ∧ 0 < m
      then g.At (min (a / s) ((g.width.toNat : Int) - 1)) (min (b / s) ((m : Int) - 1))
      else img.pix a b := by
  induction m generalizing img with
  | zero => simp
  | succ m ih =>
    have hpre := (colFold_inRect g s m img a b).mpr himg
    rw [List.range_succ, List.foldl_append, List.foldl_cons, List.foldl_nil,
      cellRow_pix g s hs _ _ _ a b hpre, ih img himg]
    push_cast
    have hmul : ((m : Int) + 1) * s = (m : Int) * s + s := by ring
    have hms : (0 : Int) ≤ (m : Int) * s := mul_nonneg (by positivity) hs.le
    by_cases hacol : 0 ≤ a ∧ a ≤ (g.width.toNat : Int) * s ∧ 0 < g.width.toNat
    swap
    · rw [if_neg (by tauto), if_neg (by tauto), if_neg (by tauto)]
    by_cases hA : (m : Int) * s ≤ b ∧ b ≤ (m : Int) * s + s
    · have hdiv : (m : Int) ≤ b / s := (Int.le_ediv_iff_mul_le hs).mpr hA.1
      rw [if_pos ⟨hacol.1, hacol.2.1, hacol.2.2, hA.1, hA.2⟩,
        if_pos ⟨hacol.1, hacol.2.1, hacol.2.2, by omega, by omega, by omega⟩]
      have e2 : (m : Int) + 1 - 1 = (m : Int) := by ring
      rw [e2, min_eq_right hdiv]
    · by_cases hB : 0 ≤ b ∧ b ≤ (m : Int) * s ∧ 0 < m
      · have hlt : b < (m : Int) * s := by
          by_contra hge
          exact hA ⟨by omega, by omega⟩
        have hdiv : b / s < (m : Int) := (Int.ediv_lt_iff_lt_mul hs).mpr hlt
        have hdiv0 : 0 ≤ b / s := Int.ediv_nonneg hB.1 hs.le
        rw [if_neg (fun hcon => hA ⟨hcon.2.2.2.1, hcon.2.2.2.2⟩),
          if_pos ⟨hacol.1, hacol.2.1, hacol.2.2, hB.1, hB.2.1, hB.2.2⟩,
          if_pos ⟨hacol.1, hacol.2.1, hacol.2.2, hB.1, by omega, by omega⟩]
        have e1 : min (b / s) ((m : Int) - 1) = b / s := min_eq_left (by omega)
        have e2 : (m : Int) + 1 - 1 = (m : Int) := by ring
        rw [e1, e2, min_eq_left (show b / s ≤ (m : Int) from by omega)]
      · have hz : ((0 : Nat) : Int) * s = 0 := by push_cast; ring
        have hnC : ¬ (0 ≤ a ∧ a ≤ (g.width.toNat : Int) * s ∧ 0 < g.width.toNat ∧
            0 ≤ b ∧ b ≤ ((m : Int) + 1) * s ∧ 0 < m + 1) := by
          rintro ⟨-, -, -, h0b, hleb, -⟩
          have hmsb : (m : Int) * s ≤ b := by
            rcases Nat.eq_zero_or_pos m with rfl | hn
            · simpa [hz] using h0b
            · by_contra hlt2
              exact hB ⟨h0b, by omega, hn⟩
          exact hA ⟨hmsb, by omega⟩
        rw [if_neg (fun hcon => hA ⟨hcon.2.2.2.1, hcon.2.2.2.2⟩),
          if_neg (fun hcon => hB ⟨hcon.2.2.2.1, hcon.2.2.2.2.1, hcon.2.2.2.2.2⟩),
          if_neg hnC]

/-! ## C8 — pixel-exact description of `Image` for positive scale -/

/-- C8: for every grid and `scale > 0`, `Image(scale)` is a two-colour
raster with rectangle `(0,0)-(width*scale, height*scale)` in which every
pixel `(X,Y)` shows the alive colour (palette index 1, black) exactly
when the cell `(X div scale, Y div scale)` is alive — each cell maps to
a `scale x scale` block, row-major, top-left origin.  (The source's
`DrawRect` paints inclusive `scale+1`-sized rectangles, so neighbouring
cells overdraw one boundary pixel line; because cells are drawn in
row-major order the later cell always wins, which yields exactly the
block decomposition claimed.  `/` is integer division, which on these
nonnegative operands agrees with Go's.) -/
theorem C8_render_pixels (g : GameOfLife) (scale X Y : Int)
    (hs : 0 < scale) (hX0 : 0 ≤ X) (hX : X < g.width * scale)
    (hY0 : 0 ≤ Y) (hY : Y < g.height * scale) :
    (g.Image scale).pix X Y = g.At (X / scale) (Y / scale) ∧
    (g.Image scale).minX = 0 ∧ (g.Image scale).minY = 0 ∧
    (g.Image scale).maxX = g.width * scale ∧ (g.Image scale).maxY = g.height * scale := by
  have hws : 0 < g.width * scale := by omega
  have hhs : 0 < g.height * scale := by omega
  have hw : 0 < g.width := by nlinarith
  have hh : 0 < g.height := by nlinarith
  have hWI : ((g.width.toNat : Int)) = g.width := by omega
  have hHI : ((g.height.toNat : Int)) = g.height := by omega
  obtain ⟨e1, e2, e3, e4⟩ := Image_rectEq g scale
  have hq1 : (g.Image scale).minX = 0 := by
    rw [e1]; exact min_eq_left hws.le
  have hq2 : (g.Image scale).minY = 0 := by
    rw [e2]; exact min_eq_left hhs.le
  have hq3 : (g.Image scale).maxX = g.width * scale := by
    rw [e3]; exact max_eq_right hws.le
  have hq4 : (g.Image scale).maxY = g.height * scale := by
    rw [e4]; exact max_eq_right hhs.le
  refine ⟨?_, hq1, hq2, hq3, hq4⟩
  have himg : (newPaletted (g.width * scale) (g.height * scale)).inRect X Y := by
    unfold newPaletted Paletted.inRect
    dsimp only
    rw [min_eq_left hws.le, min_eq_left hhs.le, max_eq_right hws.le, max_eq_right hhs.le]
    exact ⟨hX0, hX, hY0, hY⟩
  unfold GameOfLife.Image
  rw [colFold_pix g scale hs g.height.toNat _ X Y himg, hWI, hHI,
    if_pos ⟨hX0, by omega, by omega, hY0, by omega, by omega⟩]
  have hdx : X / scale < g.width := (Int.ediv_lt_iff_lt_mul hs).mpr hX
  have hdy : Y / scale < g.height := (Int.ediv_lt_iff_lt_mul hs).mpr hY
  rw [min_eq_left (by omega), min_eq_left (by omega)]

/-- Witness for C8: on the blinker grid at scale 2, the pixel `(3,2)`
shows cell `(1,1)` (alive). -/
theorem C8_render_pixels_witness :
    ((0 : Int) < 2 ∧ (0 : Int) ≤ 3 ∧ (3 : Int) < blinker.width * 2 ∧
     (0 : Int) ≤ 2 ∧ (2 : Int) < blinker.height * 2) ∧
    (blinker.Image 2).pix 3 2 = blinker.At (3 / 2) (2 / 2) :=
  ⟨⟨by decide, by decide, by decide, by decide, by decide⟩,
   (C8_render_pixels blinker 2 3 2 (by decide) (by decide) (by decide)
     (by decide) (by decide)).1⟩

/-! ## C4 — `Image` performs no scale validation -/

/-- C4 (amended): `Image` never fails — the Go code contains no scale
check and no error return; for every `scale ≤ 0` it still produces a
frame, one in which no pixel is ever painted (for `scale < 0` every
`DrawRect` loop range is empty; for `scale = 0` the canonicalised image
rectangle is empty, so every `Set` is discarded). -/
theorem C4_scale_nonpositive (g : GameOfLife) (scale : Int) (hs : scale ≤ 0)
    (X Y : Int) : (g.Image scale).pix X Y = false := by
  suffices h : rectEq (g.Image scale) (newPaletted (g.width * scale) (g.height * scale)) ∧
      ∀ a b : Int, (g.Image scale).pix a b = false by
    exact h.2 X Y
  unfold GameOfLife.Image
  apply foldl_invariant _ (fun im =>
    rectEq im (newPaletted (g.width * scale) (g.height * scale)) ∧
    ∀ a b : Int, im.pix a b = false)
  · intro im i him
    apply foldl_invariant _ (fun im2 =>
      rectEq im2 (newPaletted (g.width * scale) (g.height * scale)) ∧
      ∀ a b : Int, im2.pix a b = false)
    · intro im2 j h2
      refine ⟨rectEq_trans (DrawRect_rectEq _ _ _ _ _ im2) h2.1, ?_⟩
      intro a b
      rw [DrawRect_pix, if_neg ?_]
      · exact h2.2 a b
      · rintro ⟨hj1, hj2, hi1, hi2, hin⟩
        obtain ⟨f1, f2, f3, f4⟩ := h2.1
        unfold Paletted.inRect at hin
        rw [f1, f3] at hin
        unfold newPaletted at hin
        dsimp only at hin
        rcases lt_or_eq_of_le hs with hlt | rfl
        · omega
        · rw [mul_zero, min_self, max_self] at hin
          omega
    · exact him
  · exact ⟨rectEq_refl _, fun a b => rfl⟩

/-- Witness for C4's amended theorem at a concrete negative scale. -/
theorem C4_scale_nonpositive_witness :
    ((-3 : Int) ≤ 0) ∧ (oneAlive.Image (-3)).pix 5 7 = false :=
  ⟨by decide, C4_scale_nonpositive oneAlive (-3) (by decide) 5 7⟩

/-- C4 counterexample: the claim says `Image` with `scale ≤ 0` fails with
an `InvalidScale` error and produces no frame; but the code performs no
validation — at `scale = 0` on a concrete grid it succeeds and returns a
fully-determined (empty-rectangle, all-white) frame.  No error value of
any kind exists in `Image`'s type, mirroring the Go function's
error-free signature. -/
theorem C4_counterexample :
    oneAlive.Image 0 = ⟨0, 0, 0, 0, fun _ _ => false⟩ := rfl

/-! ## Fingerprinting and the animation loop (`src/main.go`) -/

/-- The iteration cap constant of `src/main.go`. -/
def MaxIterations : Nat := 2048

/-- The CRC-64/ISO polynomial in reversed bit order (`crc64.ISO`). -/
def crcPolyISO : Nat := 0xD800000000000000

/-- One entry of the table built by `crc64.MakeTable(crc64.ISO)`: eight
rounds of shift-right-one and conditional xor with the polynomial.  All
values stay below `2^64`, so Go's `uint64` arithmetic needs no further
reduction. -/
def crcTableEntry (b : Nat) : Nat :=
  (List.range 8).foldl
    (fun crc _ => if crc % 2 = 1 then (crc / 2) ^^^ crcPolyISO else crc / 2) b

/-- One byte step of Go's table-driven `crc64` update:
`crc = tab[byte(crc)^b] ^ (crc >> 8)`. -/
def crc64Update (crc b : Nat) : Nat :=
  (crcTableEntry ((crc ^^^ b) % 256)) ^^^ (crc / 256)

/-- `crc64.Checksum(data, tab)`: the Go implementation complements the
running value before and after processing the bytes. -/
def crc64 (data : List Nat) : Nat :=
  (data.foldl crc64Update 0xFFFFFFFFFFFFFFFF) ^^^ 0xFFFFFFFFFFFFFFFF

/-- The byte buffer `GenerateGIF` fills from the grid after each update:
row-major over `height x width`, byte `64` for an alive cell and `0` for
a dead one, read through `At`. -/
def GameOfLife.stateBytes (g : GameOfLife) : List Nat :=
  ((List.range g.height.toNat).map (fun i : Nat =>
    (List.range g.width.toNat).map (fun j : Nat =>
      if g.At (j : Int) (i : Int) then 64 else 0))).flatten

/-- The fingerprint `GenerateGIF` computes for one generation. -/
def crcState (g : GameOfLife) : Nat := crc64 g.stateBytes

/-- Why `GenerateGIF`'s loop stopped, as named by the spec:
`StableCycleDetected` when the new fingerprint matched a recorded one
(the source's `stable` flag), `IterationLimitReached` when the frame
count reached the cap. -/
inductive TermReason where
  | StableCycleDetected
  | IterationLimitReached
deriving DecidableEq, Repr

/-- The `for {}` loop of `GenerateGIF`.  Each iteration appends a frame
of the current generation, advances the grid, fingerprints the new
generation, and breaks when that fingerprint is already among
`hash_sums` (`stable`) or when `maxIter` frames have been produced;
otherwise it appends the fingerprint to `hash_sums` and continues.  Each
iteration grows `images` by one and the loop breaks at
`images.length = maxIter`, so for `maxIter > 0` a fuel of `maxIter`
makes this structural recursion equal to the unbounded Go loop (the
fuel-exhausted case is then unreachable); for `maxIter = 0` the Go loop
would never satisfy the length check and could only stop on `stable`. -/
def genLoop (scale : Int) (maxIter : Nat) :
    Nat → GameOfLife → List Paletted → List Nat → List Paletted × Bool
  | 0, _, images, _ => (images, false)
  | fuel + 1, g, images, sums =>
    let images2 := images ++ [g.Image scale]
    let g2 := g.Update
    let hs := crcState g2
    if hs ∈ sums then (images2, true)
    else if images2.length = maxIter then (images2, false)
    else genLoop scale maxIter fuel g2 images2 (sums ++ [hs])

/-- `GenerateGIF`, abstracted over the render scale (the source fixes 4
at its call site) and the iteration cap (the source fixes
`MaxIterations`), returning the ordered frame sequence and the
termination reason instead of encoding them into a GIF container (the
per-frame delay is the constant 1 and carries no information).  This is
the spec's `Generate`. -/
def GenerateGIF (g : GameOfLife) (scale : Int) (maxIter : Nat) :
    List Paletted × TermReason :=
  let r := genLoop scale maxIter maxIter g [] []
  (r.1, if r.2 then TermReason.StableCycleDetected else TermReason.IterationLimitReached)

/-- Generation `n` of the simulation started at `g`. -/
def iterUpdate : Nat → GameOfLife → GameOfLife
  | 0, g => g
  | n + 1, g => (iterUpdate n g).Update

theorem iterUpdate_succ (n : Nat) (g : GameOfLife) :
    iterUpdate (n + 1) g = (iterUpdate n g).Update := rfl

/-- The first `k` frames `GenerateGIF` renders: generations `0..k-1`. -/
def framesUpto (g : GameOfLife) (scale : Int) (k : Nat) : List Paletted :=
  (List.range k).map (fun i : Nat => (iterUpdate i g).Image scale)

/-- The fingerprints recorded after `k` full loop iterations:
generations `1..k` — generation 0 is never fingerprinted. -/
def hashesUpto (g : GameOfLife) (k : Nat) : List Nat :=
  (List.range k).map (fun i : Nat => crcState (iterUpdate (i + 1) g))

theorem framesUpto_succ (g : GameOfLife) (scale : Int) (k : Nat) :
    framesUpto g scale (k + 1) = framesUpto g scale k ++ [(iterUpdate k g).Image scale] := by
  unfold framesUpto
  rw [List.range_succ, List.map_append]
  rfl

theorem hashesUpto_succ (g : GameOfLife) (k : Nat) :
    hashesUpto g (k + 1) = hashesUpto g k ++ [crcState (iterUpdate (k + 1) g)] := by
  unfold hashesUpto
  rw [List.range_succ, List.map_append]
  rfl

theorem framesUpto_length (g : GameOfLife) (scale : Int) (k : Nat) :
    (framesUpto g scale k).length = k := by
  unfold framesUpto
  rw [List.length_map, List.length_range]

/-- The loop invariant of `GenerateGIF`: as long as neither break
condition has fired in the first `k` iterations, the loop continues from
generation `k` carrying exactly the frames of generations `0..k-1` and
exactly the fingerprints of generations `1..k`. -/
theorem genLoop_invariant (g : GameOfLife) (scale : Int) (maxIter k fuel : Nat)
    (hnostop : ∀ m : Nat, m < k →
      crcState (iterUpdate (m + 1) g) ∉ hashesUpto g m ∧ m + 1 ≠ maxIter) :
    genLoop scale maxIter (k + fuel) g [] [] =
      genLoop scale maxIter fuel (iterUpdate k g) (framesUpto g scale k) (hashesUpto g k) := by
  induction k generalizing fuel with
  | zero =>
    simp [iterUpdate, framesUpto, hashesUpto]
  | succ k ih =>
    have hstep := hnostop k (by omega)
    have h1 : k + 1 + fuel = k + (fuel + 1) := by omega
    rw [h1, ih (fuel + 1) (fun m hm => hnostop m (by omega))]
    simp only [genLoop]
    rw [← iterUpdate_succ, ← framesUpto_succ, ← hashesUpto_succ]
    rw [if_neg hstep.1, if_neg ?_]
    case _ => rw [framesUpto_length]; exact hstep.2

/-! ## C10 — the seen-fingerprint loop invariant -/

/-- C10: within one `GenerateGIF` run, after `k` full loop iterations
(none of which fired a break condition) the loop continues from
generation `k`, the seen-fingerprint list holds exactly the fingerprints
of generations `1` through `k` (`hashesUpto`), and the output holds the
frames of generations `0` through `k-1`.  The fingerprint of generation
0 is never computed or recorded — `hashesUpto` starts at generation 1 by
construction — so a repeat can only be declared between a generation
`>= 1` and a later one. -/
theorem C10_loop_invariant (g : GameOfLife) (scale : Int) (maxIter k fuel : Nat)
    (hnostop : ∀ m : Nat, m < k →
      crcState (iterUpdate (m + 1) g) ∉ hashesUpto g m ∧ m + 1 ≠ maxIter) :
    genLoop scale maxIter (k + fuel) g [] [] =
      genLoop scale maxIter fuel (iterUpdate k g) (framesUpto g scale k) (hashesUpto g k) :=
  genLoop_invariant g scale maxIter k fuel hnostop

/-- Witness for C10 on the blinker grid after one iteration. -/
theorem C10_loop_invariant_witness :
    genLoop 4 5 (1 + 4) blinker [] [] =
      genLoop 4 5 4 (iterUpdate 1 blinker) (framesUpto blinker 4 1) (hashesUpto blinker 1) :=
  C10_loop_invariant blinker 4 5 1 4 (by decide)

/-! ## C5 — termination at the iteration limit -/

theorem hashesUpto_get? (g : GameOfLife) (N m : Nat) (h : m < N) :
    (hashesUpto g N).get? m = some (crcState (iterUpdate (m + 1) g)) := by
  unfold hashesUpto
  rw [List.get?_map, List.get?_range h, Option.map_some']

theorem hashesUpto_length (g : GameOfLife) (N : Nat) : (hashesUpto g N).length = N := by
  unfold hashesUpto
  rw [List.length_map, List.length_range]

/-- Distinct fingerprints among generations `1..N` mean no loop
iteration up to the `m`-th can fire the `stable` break. -/
theorem no_early_repeat (g : GameOfLife) (N : Nat)
    (hdist : (hashesUpto g N).Nodup) (m : Nat) (hm : m < N) :
    crcState (iterUpdate (m + 1) g) ∉ hashesUpto g m := by
  intro hmem
  obtain ⟨i, hi⟩ := List.mem_iff_get?.mp hmem
  have hilen : i < m := by
    by_contra hge
    rw [List.get?_eq_none.mpr (by rw [hashesUpto_length]; omega)] at hi
    exact Option.noConfusion hi
  rw [hashesUpto_get? g m i hilen] at hi
  have hne := (List.nodup_iff_get?_ne_get?.mp hdist) i m hilen
    (by rw [hashesUpto_length]; exact hm)
  rw [hashesUpto_get? g N i (by omega), hashesUpto_get? g N m hm] at hne
  exact hne (by rw [Option.some.injEq]; exact Option.some.inj hi)

/-- C5: when the fingerprints of generations `1..N` are pairwise
distinct (the code's only observable notion of "the evolution repeats no
earlier state" — the spec designates fingerprinting as the sole cycle
detection mechanism), `GenerateGIF` with a positive iteration cap `N`
stops with `IterationLimitReached` and returns exactly `N` frames.
(For `N = 0` the Go loop could never satisfy its length check, so
positivity is required.) -/
theorem C5_iteration_limit (g : GameOfLife) (scale : Int) (N : Nat)
    (hN : 0 < N) (hdist : (hashesUpto g N).Nodup) :
    (GenerateGIF g scale N).1.length = N ∧
    (GenerateGIF g scale N).2 = TermReason.IterationLimitReached := by
  obtain ⟨k, rfl⟩ : ∃ k, N = k + 1 := ⟨N - 1, by omega⟩
  have hinv := genLoop_invariant g scale (k + 1) k 1
    (fun m hm => ⟨no_early_repeat g (k + 1) hdist m (by omega), by omega⟩)
  have hrun : genLoop scale (k + 1) (k + 1) g [] [] =
      (framesUpto g scale (k + 1), false) := by
    rw [show k + 1 = k + 1 from rfl] at hinv
    rw [hinv]
    simp only [genLoop]
    rw [← iterUpdate_succ, ← framesUpto_succ]
    rw [if_neg (no_early_repeat g (k + 1) hdist k (by omega)),
      if_pos (framesUpto_length g scale (k + 1))]
  refine ⟨?_, ?_⟩ <;> simp [GenerateGIF, hrun, framesUpto_length]

/-- Witness for C5: the blinker's generations 1 and 2 (vertical and
horizontal phases) have distinct fingerprints, so with cap `N = 2` the
run stops at the limit with 2 frames. -/
theorem C5_iteration_limit_witness :
    (0 < 2 ∧ (hashesUpto blinker 2).Nodup) ∧
    (GenerateGIF blinker 4 2).1.length = 2 ∧
    (GenerateGIF blinker 4 2).2 = TermReason.IterationLimitReached :=
  ⟨⟨by decide, by decide⟩, C5_iteration_limit blinker 4 2 (by decide) (by decide)⟩

/-! ## C2 — still lifes: cycle detection and frame count -/

/-- One unfolding of the loop body (the `let`s zeta-reduced). -/
theorem genLoop_step (scale : Int) (maxIter fuel : Nat) (g : GameOfLife)
    (images : List Paletted) (sums : List Nat) :
    genLoop scale maxIter (fuel + 1) g images sums =
      if crcState g.Update ∈ sums then (images ++ [g.Image scale], true)
      else if (images ++ [g.Image scale]).length = maxIter then
        (images ++ [g.Image scale], false)
      else genLoop scale maxIter fuel g.Update (images ++ [g.Image scale])
        (sums ++ [crcState g.Update]) := rfl

/-- C2 (amended): for every grid that is a fixed point of `Update` (a
still life such as the 2x2 block), every scale and every
`maxIterations >= 2`, `GenerateGIF` terminates with
`StableCycleDetected` and its output holds exactly TWO frames — both
rendering the same generation.  Generation 0 is never fingerprinted, so
the fixed point is only detected when generation 2 repeats generation 1;
the repeating generation is not re-appended at detection time, but the
output still contains duplicate frame contents (frame 1 equals frame
0). -/
theorem C2_still_life (g : GameOfLife) (scale : Int) (maxIter : Nat)
    (hfix : g.Update = g) (hmax : 2 ≤ maxIter) :
    (GenerateGIF g scale maxIter).1 = [g.Image scale, g.Image scale] ∧
    (GenerateGIF g scale maxIter).2 = TermReason.StableCycleDetected := by
  obtain ⟨m, rfl⟩ : ∃ m, maxIter = m + 2 := ⟨maxIter - 2, by omega⟩
  have step1 : genLoop scale (m + 2) (m + 2) g [] [] =
      genLoop scale (m + 2) (m + 1) g [g.Image scale] [crcState g] := by
    show genLoop scale (m + 2) (m + 1 + 1) g [] [] = _
    rw [genLoop_step]
    simp only [hfix, List.nil_append]
    rw [if_neg (List.not_mem_nil _),
      if_neg (by simp only [List.length_singleton]; omega)]
  have step2 : genLoop scale (m + 2) (m + 1) g [g.Image scale] [crcState g] =
      ([g.Image scale, g.Image scale], true) := by
    rw [genLoop_step]
    simp only [hfix]
    rw [if_pos (List.mem_singleton.mpr rfl), List.singleton_append]
  have hrun := step1.trans step2
  refine ⟨?_, ?_⟩ <;> simp [GenerateGIF, hrun]

/-- Witness for C2's amended theorem on the concrete 2x2 block. -/
theorem C2_still_life_witness :
    (block2.Update = block2 ∧ 2 ≤ 2) ∧
    (GenerateGIF block2 4 2).1 = [block2.Image 4, block2.Image 4] ∧
    (GenerateGIF block2 4 2).2 = TermReason.StableCycleDetected :=
  ⟨⟨by decide, by decide⟩, C2_still_life block2 4 2 (by decide) (by decide)⟩

/-- C2 counterexample: on the 2x2 block with `maxIterations = 2`, the
output sequence has 2 frames, not the claimed exactly 1; moreover the
second frame renders the same generation contents as the first (the
fixed point), so the output does contain a frame duplicating an earlier
frame's generation. -/
theorem C2_counterexample :
    (GenerateGIF block2 4 2).1.length ≠ 1 ∧
    (GenerateGIF block2 4 2).1 = [block2.Image 4, block2.Image 4] ∧
    (GenerateGIF block2 4 2).2 = TermReason.StableCycleDetected :=
  ⟨by decide, rfl, by decide⟩

/-! ## C3 — period-2 oscillators: cycle detection and frame count -/

/-- C3 (amended): for every grid of period 2 under `Update` whose two
phases have distinct fingerprints, and every `maxIterations >= 3`,
`GenerateGIF` terminates with `StableCycleDetected` and the output holds
exactly THREE frames (generations 0, 1, 2 — the third duplicating the
first), not 2: generation 0 is never fingerprinted, so the cycle is only
detected when generation 3 repeats generation 1. -/
theorem C3_period_two (g : GameOfLife) (scale : Int) (maxIter : Nat)
    (hper : g.Update.Update = g) (hdist : crcState g ≠ crcState g.Update)
    (hmax : 3 ≤ maxIter) :
    (GenerateGIF g scale maxIter).1.length = 3 ∧
    (GenerateGIF g scale maxIter).2 = TermReason.StableCycleDetected := by
  obtain ⟨m, rfl⟩ : ∃ m, maxIter = m + 3 := ⟨maxIter - 3, by omega⟩
  have step1 : genLoop scale (m + 3) (m + 3) g [] [] =
      genLoop scale (m + 3) (m + 2) g.Update [g.Image scale] [crcState g.Update] := by
    show genLoop scale (m + 3) (m + 2 + 1) g [] [] = _
    rw [genLoop_step]
    simp only [List.nil_append]
    rw [if_neg (List.not_mem_nil _),
      if_neg (by simp only [List.length_singleton]; omega)]
  have step2 : genLoop scale (m + 3) (m + 2) g.Update [g.Image scale] [crcState g.Update] =
      genLoop scale (m + 3) (m + 1) g [g.Image scale, g.Update.Image scale]
        [crcState g.Update, crcState g] := by
    show genLoop scale (m + 3) (m + 1 + 1) g.Update _ _ = _
    rw [genLoop_step]
    simp only [hper]
    rw [if_neg (by simpa using hdist),
      if_neg (by simp only [List.length_append, List.length_singleton]; omega)]
    rw [List.singleton_append, List.singleton_append]
  have step3 : genLoop scale (m + 3) (m + 1) g [g.Image scale, g.Update.Image scale]
        [crcState g.Update, crcState g] =
      ([g.Image scale, g.Update.Image scale, g.Image scale], true) := by
    rw [genLoop_step]
    rw [if_pos (List.mem_cons_self _ _)]
    rfl
  have hrun := (step1.trans step2).trans step3
  refine ⟨?_, ?_⟩ <;> simp [GenerateGIF, hrun]

/-- Witness for C3's amended theorem on the concrete 3x3 blinker. -/
theorem C3_period_two_witness :
    (blinker.Update.Update = blinker ∧ crcState blinker ≠ crcState blinker.Update ∧ 3 ≤ 4) ∧
    (GenerateGIF blinker 4 4).1.length = 3 ∧
    (GenerateGIF blinker 4 4).2 = TermReason.StableCycleDetected :=
  ⟨⟨by decide, by decide, by decide⟩,
   C3_period_two blinker 4 4 (by decide) (by decide) (by decide)⟩

/-- C3 counterexample: the blinker run with cap 4 yields 3 frames, not
the claimed exactly 2. -/
theorem C3_counterexample :
    (GenerateGIF blinker 4 4).1.length ≠ 2 ∧
    (GenerateGIF blinker 4 4).1.length = 3 :=
  ⟨by decide, by decide⟩
